import Mathlib

/-!
Verification of the `mpm` plugin package manager (resolver, registry client,
installer, manifest store and remove command) against its specification.

The Python sources are shallowly embedded: pure functions become Lean
functions, stateful code passes its state explicitly, the network / git /
filesystem environment is an explicit parameter, and fallible operations
return `Option` / `Except`.
-/

namespace Mpm

/-! ## Semantic versions (`semver.Version` restricted to `X.Y.Z` triples)

The spec's data model (§3) fixes versions to triples of non-negative
integers compared lexicographically; `semver.Version.parse` on such
strings yields exactly the triple. -/

structure Version where
  major : Nat
  minor : Nat
  patch : Nat
deriving DecidableEq, Repr

namespace Version

/-- Lexicographic strict order on (major, minor, patch), as `semver` compares
release versions. -/
def lt (a b : Version) : Bool :=
  a.major < b.major ||
    (a.major == b.major && (a.minor < b.minor ||
      (a.minor == b.minor && a.patch < b.patch)))

/-- Non-strict lexicographic order. -/
def le (a b : Version) : Bool :=
  lt a b || a == b

/-- `semver.Version.bump_major`: next major release. -/
def bump_major (v : Version) : Version :=
  ⟨v.major + 1, 0, 0⟩

/-- `semver.Version.bump_minor`: next minor release. -/
def bump_minor (v : Version) : Version :=
  ⟨v.major, v.minor + 1, 0⟩

/-- Strict decimal numeral: non-empty, all digits, no leading zero
(as `semver` requires of each numeric component). -/
def parseNumPart (s : List Char) : Option Nat :=
  if s = [] then none
  else if s.all (·.isDigit) then
    if s.length > 1 && s.headD '0' = '0' then none
    else some (s.foldl (fun n c => n * 10 + (c.toNat - '0'.toNat)) 0)
  else none

/-- `semver.Version.parse` on strict `X.Y.Z` strings: exactly three
dot-separated strict numerals; anything else is a parse error. -/
def parse (s : String) : Option Version :=
  match (s.toList.splitOn '.').map parseNumPart with
  | [some a, some b, some c] => some ⟨a, b, c⟩
  | _ => none

end Version

/-! ## `PluginProvider._satisfies_version` (src/mpm/resolver.py lines 143-215) -/

/-- Python `s.startswith(p)`: `p`'s characters are a prefix of `s`'s. -/
def strStartsWith (s p : String) : Bool :=
  p.data.isPrefixOf s.data

/-- Python `s[n:]`: drop the first `n` characters. -/
def strDrop (s : String) (n : Nat) : String :=
  ⟨s.data.drop n⟩

/-- Python `s.strip()`: drop leading and trailing whitespace. -/
def strTrim (s : String) : String :=
  ⟨((s.data.dropWhile Char.isWhitespace).reverse.dropWhile Char.isWhitespace).reverse⟩

/-- Body of `PluginProvider._satisfies_version` after `spec = spec.strip()`:
decide whether `version` satisfies the already-trimmed range string `spec`
(wildcard, caret, tilde, comparators, exact).  Unparsable version parts fail
closed. -/
def satisfiesSpec (version : Version) (spec : String) : Bool :=
  if spec = "" ∨ spec = "*" then true
  else if strStartsWith spec "^" then
    match Version.parse (strDrop spec 1) with
    | some base => Version.le base version && Version.lt version base.bump_major
    | none => false
  else if strStartsWith spec "~" then
    match Version.parse (strDrop spec 1) with
    | some base => Version.le base version && Version.lt version base.bump_minor
    | none => false
  else if strStartsWith spec ">=" then
    match Version.parse (strTrim (strDrop spec 2)) with
    | some m => Version.le m version
    | none => false
  else if strStartsWith spec "<=" then
    match Version.parse (strTrim (strDrop spec 2)) with
    | some m => Version.le version m
    | none => false
  else if strStartsWith spec ">" then
    match Version.parse (strTrim (strDrop spec 1)) with
    | some m => Version.lt m version
    | none => false
  else if strStartsWith spec "<" then
    match Version.parse (strTrim (strDrop spec 1)) with
    | some m => Version.lt version m
    | none => false
  else if strStartsWith spec "=" then
    match Version.parse (strTrim (strDrop spec 1)) with
    | some r => version == r
    | none => false
  else
    match Version.parse spec with
    | some r => version == r
    | none => false

/-- `PluginProvider._satisfies_version` (resolver.py lines 143-215): strip,
then dispatch on the range form. -/
def satisfies_version (version : Version) (spec : String) : Bool :=
  satisfiesSpec version (strTrim spec)

/-- The version-string part that `_satisfies_version` hands to
`semver.Version.parse` for a (trimmed) range string: the range with its
operator stripped (comparator forms are re-stripped, caret/tilde are not). -/
def specVersionPart (spec : String) : String :=
  if spec = "" ∨ spec = "*" then spec
  else if strStartsWith spec "^" then strDrop spec 1
  else if strStartsWith spec "~" then strDrop spec 1
  else if strStartsWith spec ">=" then strTrim (strDrop spec 2)
  else if strStartsWith spec "<=" then strTrim (strDrop spec 2)
  else if strStartsWith spec ">" then strTrim (strDrop spec 1)
  else if strStartsWith spec "<" then strTrim (strDrop spec 1)
  else if strStartsWith spec "=" then strTrim (strDrop spec 1)
  else spec

/-! ## Requirements, registry snapshots and provider state
(src/mpm/resolver.py) -/

/-- `Requirement` (resolver.py lines 14-22): a slug plus a version range. -/
structure Requirement where
  identifier : String
  spec : String
deriving DecidableEq, Repr

/-- One registry entry: the JSON object for a slug.  `version`, `repo` and
`dependencies` keys may each be absent. -/
structure RegEntry where
  version : Option String
  repo : Option String
  dependencies : Option (List (String × String))
deriving DecidableEq, Repr

/-- A registry snapshot: slug → entry (Python dict, insertion ordered). -/
abbrev Registry := List (String × RegEntry)

/-- First-match lookup in an association list (Python `dict` access). -/
def lookupMap {α : Type} (m : List (String × α)) (k : String) : Option α :=
  (m.find? (fun p => p.1 == k)).map (·.2)

/-- Overwriting insert into an association list (Python `dict` assignment):
since `lookupMap` is first-match, consing the new binding shadows any old
one. -/
def insertMap {α : Type} (m : List (String × α)) (k : String) (v : α) :
    List (String × α) :=
  (k, v) :: m

/-- A remote plugin manifest (`meshtastic.json`): only its `dependencies`
key matters to the resolver; the key may be absent. -/
structure ManifestData where
  dependencies : Option (List (String × String))
deriving DecidableEq, Repr

/-- Outcome of `git clone --depth 1 --branch tag url` followed by reading
`meshtastic.json` from the clone (resolver.py lines 266-281). -/
inductive CloneOutcome where
  | cloneFail
  | noManifest
  | badManifest
  | manifest (m : ManifestData)
deriving DecidableEq, Repr

/-- The network/VCS environment: what cloning a (repo url, tag) pair yields. -/
abbrev World := String → String → CloneOutcome

/-- Mutable state of a `PluginProvider` (resolver.py lines 47-49). -/
structure ProviderState where
  manifest_cache : List (String × ManifestData)
  requirement_specs : List (String × String)
  candidate_to_identifier : List (String × String)
deriving DecidableEq, Repr

/-- The provider state of a freshly constructed `PluginProvider`. -/
def ProviderState.fresh : ProviderState := ⟨[], [], []⟩

/-- Python `candidate.split("@", 1)` when `"@" in candidate`: split at the
first separator occurrence; `none` when the separator is absent. -/
def splitFirst (sep : Char) : List Char → Option (List Char × List Char)
  | [] => none
  | c :: cs =>
    if c = sep then some ([], cs)
    else match splitFirst sep cs with
      | some (a, b) => some (c :: a, b)
      | none => none

/-- Split a candidate string `identifier@version` at the first `@`. -/
def splitCandidate (s : String) : Option (String × String) :=
  match splitFirst '@' s.toList with
  | some (a, b) => some (a.asString, b.asString)
  | none => none

/-- `PluginProvider.identify` on a `Requirement` (resolver.py lines 61-63):
records the requirement's spec for its slug and returns the slug. -/
def identify (ps : ProviderState) (r : Requirement) : ProviderState × String :=
  ({ ps with requirement_specs := insertMap ps.requirement_specs r.identifier r.spec },
   r.identifier)

/-- Sort key used by `find_matches` when ordering candidates: the parsed
version after the first `@` (all stored candidates carry a parsable
version, so the default is unreachable). -/
def candidateSortKey (v : String) : Version :=
  match splitCandidate v with
  | some (_, ver) => (Version.parse ver).getD ⟨0, 0, 0⟩
  | none => (Version.parse v).getD ⟨0, 0, 0⟩

/-- Insert into a descending-sorted candidate list. -/
def insertDesc (c : String) : List String → List String
  | [] => [c]
  | x :: xs =>
    if Version.lt (candidateSortKey x) (candidateSortKey c) then c :: x :: xs
    else x :: insertDesc c xs

/-- `sorted(..., reverse=True)` on candidate strings by parsed version. -/
def sortCandidatesDesc : List String → List String
  | [] => []
  | x :: xs => insertDesc x (sortCandidatesDesc xs)

set_option linter.unusedVariables false in
/-- `PluginProvider.find_matches` (resolver.py lines 92-141).  The
`requirements` argument is accepted but — as in the source — never
consulted; only the spec most recently stored by `identify` is checked. -/
def find_matches (reg : Registry) (ps : ProviderState) (identifier : String)
    (requirements : List Requirement) (incompatibilities : List String) :
    List String × ProviderState :=
  match lookupMap reg identifier with
  | none => ([], ps)
  | some plugin_info =>
    match plugin_info.version with
    | none => ([], ps)
    | some v0 =>
      let available_versions := [v0]
      let version_spec := (lookupMap ps.requirement_specs identifier).getD "*"
      let step := fun (acc : List String × ProviderState) (version_str : String) =>
        match Version.parse version_str with
        | none => acc
        | some version =>
          let candidate := identifier ++ "@" ++ version_str
          if candidate ∈ incompatibilities ∨ version_str ∈ incompatibilities then acc
          else if satisfies_version version version_spec then
            (acc.1 ++ [candidate],
             { acc.2 with candidate_to_identifier :=
                 insertMap acc.2.candidate_to_identifier candidate identifier })
          else acc
      let res := available_versions.foldl step ([], ps)
      (sortCandidatesDesc res.1, res.2)

/-- `PluginProvider.is_satisfied_by` (resolver.py lines 285-319) applied to a
`Requirement` object (the engine always passes one, so the stored-spec
fallback branch for bare string requirements is not reachable). -/
def is_satisfied_by (requirement : Requirement) (candidate : String) : Bool :=
  match splitCandidate candidate with
  | none => false
  | some (cid, cver) =>
    if cid != requirement.identifier then false
    else
      match Version.parse cver with
      | some v => satisfies_version v requirement.spec
      | none => false

/-- Build `Requirement`s from a dependency map, dropping the synthetic
host-firmware entry (`dep_slug != "meshtastic"`). -/
def reqsOfDeps (deps : List (String × String)) : List Requirement :=
  (deps.filter (fun d => d.1 != "meshtastic")).map (fun d => ⟨d.1, d.2⟩)

/-- The registry's inline dependency map used by `get_dependencies` (resolver.py
lines 241-247): available when the slug is present and the candidate version
equals `plugin_info.get("version", version)` — i.e. the entry's version, with
the candidate's own version as the default when the key is absent. -/
def inlineDeps (reg : Registry) (identifier version : String) :
    Option (List (String × String)) :=
  match lookupMap reg identifier with
  | some plugin_info =>
    if version = plugin_info.version.getD version then plugin_info.dependencies
    else none
  | none => none

/-- The repository URL `get_dependencies` clones (resolver.py lines 250-258). -/
def repoOf (reg : Registry) (identifier : String) : Option String :=
  (lookupMap reg identifier).bind (·.repo)

/-- `PluginProvider.get_dependencies` (resolver.py lines 217-283): per-run
cache, then the registry's inline dependency map for the matching version,
then a shallow clone of tag `v{version}`; every failure degrades to `[]`. -/
def get_dependencies (reg : Registry) (world : World) (ps : ProviderState)
    (candidate : String) : List Requirement × ProviderState :=
  match splitCandidate candidate with
  | none => ([], ps)
  | some (identifier, version) =>
    let cache_key := identifier ++ "@" ++ version
    match lookupMap ps.manifest_cache cache_key with
    | some manifest => (reqsOfDeps (manifest.dependencies.getD []), ps)
    | none =>
      match inlineDeps reg identifier version with
      | some deps => (reqsOfDeps deps, ps)
      | none =>
        match repoOf reg identifier with
        | none => ([], ps)
        | some url =>
          let tag := "v" ++ version
          match world url tag with
          | .cloneFail => ([], ps)
          | .noManifest => ([], ps)
          | .badManifest => ([], ps)
          | .manifest m =>
            (reqsOfDeps (m.dependencies.getD []),
             { ps with manifest_cache := insertMap ps.manifest_cache cache_key m })

/-! ## The resolution engine

Modelled from the spec: the backtracking Resolution Engine (§4.4) is the
third-party `resolvelib` resolver, whose code is not part of the sources;
only its Provider-facing protocol is.  `solveAux`/`tryCandidates` implement
§4.4's algorithm — process pending Requirements in discovery order, identify
each requirement with the provider, check an existing assignment with
`is_satisfied_by`, otherwise request ordered candidates and try them in
order, pushing each candidate's dependencies onto the work list and
backtracking (failing to the nearest choice point, which tries the next
candidate) on conflict.  `fuel` bounds the search depth. -/

mutual

/-- Modelled from the spec: one engine step on the pending work list (§4.4). -/
def solveAux (reg : Registry) (world : World) (fuel : Nat) (ps : ProviderState)
    (work : List Requirement) (assign : List (String × String)) :
    Option (List (String × String)) × ProviderState :=
  match fuel, work with
  | 0, _ => (none, ps)
  | _ + 1, [] => (some assign, ps)
  | f + 1, r :: rest =>
    let ps1 := (identify ps r).1
    match lookupMap assign r.identifier with
    | some cand =>
      if is_satisfied_by r cand then solveAux reg world f ps1 rest assign
      else (none, ps1)
    | none =>
      let fm := find_matches reg ps1 r.identifier [r] []
      tryCandidates reg world f fm.2 fm.1 rest assign r.identifier

/-- Modelled from the spec: try each remaining candidate for a slug in
preference order, recursing into the rest of the work list (§4.4). -/
def tryCandidates (reg : Registry) (world : World) (fuel : Nat)
    (ps : ProviderState) (cands : List String) (rest : List Requirement)
    (assign : List (String × String)) (slug : String) :
    Option (List (String × String)) × ProviderState :=
  match fuel, cands with
  | 0, _ => (none, ps)
  | _ + 1, [] => (none, ps)
  | f + 1, c :: cs =>
    let gd := get_dependencies reg world ps c
    match solveAux reg world f gd.2 (rest ++ gd.1) (insertMap assign slug c) with
    | (some a, ps2) => (some a, ps2)
    | (none, ps2) => tryCandidates reg world f ps2 cs rest assign slug

end

/-- `DependencyResolver.resolve` (resolver.py lines 337-380): build
`Requirement` objects from the slug → range map, run the engine from a fresh
engine state (the provider state persists across invocations), and project
the resulting mapping to slug → version by splitting each candidate at `@`. -/
def resolve (reg : Registry) (world : World) (fuel : Nat) (ps : ProviderState)
    (requirements : List (String × String)) :
    Option (List (String × String)) × ProviderState :=
  let req_list := requirements.map (fun p => Requirement.mk p.1 p.2)
  match solveAux reg world fuel ps req_list [] with
  | (some mapping, ps1) =>
    (some (mapping.map (fun p =>
      (p.1, match splitCandidate p.2 with
            | some (_, version) => version
            | none => p.2))), ps1)
  | (none, ps1) => (none, ps1)

/-! ## `RegistryClient` (src/mpm/registry.py) -/

/-- The environment a `RegistryClient.fetch_registry` call observes:
the cache file (`none` = absent, `some none` = present but unparsable,
`some (some r)` = parses to `r`), the timestamp-file freshness check, and
the network (`none` = `requests.RequestException`). -/
structure RegistryEnv where
  cache : Option (Option Registry)
  fresh : Bool
  net : Option Registry

/-- `RegistryClient._read_cache` (registry.py lines 44-53): `None` when the
cache file is absent or fails to parse. -/
def read_cache (env : RegistryEnv) : Option Registry :=
  match env.cache with
  | none => none
  | some parsed => parsed

/-- `RegistryClient._is_cache_valid` (registry.py lines 32-42): the cache file
exists and the timestamp file exists, parses, and is within the window. -/
def is_cache_valid (env : RegistryEnv) : Bool :=
  env.cache.isSome && env.fresh

/-- `RegistryClient.fetch_registry` (registry.py lines 67-101).  The cache
write on network success is elided: its failure is ignored and it does not
affect the returned value.  `Except.error ()` is the re-raised
`requests.RequestException`. -/
def fetch_registry (env : RegistryEnv) (force_refresh : Bool) :
    Except Unit Registry :=
  let viaCache : Option Registry :=
    if !force_refresh && is_cache_valid env then read_cache env else none
  match viaCache with
  | some cached => .ok cached
  | none =>
    match env.net with
    | some data => .ok data
    | none =>
      match read_cache env with
      | some cached => .ok cached
      | none => .error ()

/-! ## `PluginInstaller` (src/src/mesh_plugin_manager/installer.py) -/

/-- The structural content of one installed plugin directory: whether its
`src` entry exists and is a directory. -/
structure PluginTree where
  hasSrcDir : Bool
deriving DecidableEq, Repr

/-- The plugins directory: slug → directory tree (if present). -/
abbrev PluginsDir := String → Option PluginTree

/-- Point update of the plugins directory. -/
def updateDir (fs : PluginsDir) (slug : String) (v : Option PluginTree) :
    PluginsDir :=
  fun s => if s = slug then v else fs s

/-- Outcome of `git clone --depth 1 --branch tag repo_url plugin_dir`
(installer.py lines 56-58): a `CalledProcessError` may leave a partial
tree behind, a successful clone produces a tree. -/
inductive CloneResult where
  | fail (leftover : Option PluginTree)
  | ok (t : PluginTree)
deriving DecidableEq

/-- `PluginInstaller.install_plugin` (installer.py lines 24-74): remove any
pre-existing directory, clone, validate the `src` subdirectory, clean up on
either failure. -/
def install_plugin (fs : PluginsDir) (slug : String) (w : CloneResult) :
    Bool × PluginsDir :=
  let fs1 := updateDir fs slug none
  match w with
  | .ok t =>
    if t.hasSrcDir then (true, updateDir fs1 slug (some t))
    else (false, updateDir (updateDir fs1 slug (some t)) slug none)
  | .fail leftover =>
    (false, updateDir (updateDir fs1 slug leftover) slug none)

/-- `PluginInstaller.remove_plugin` (installer.py lines 76-95): `False` when
the directory is absent; `rm_ok` models `shutil.rmtree` not raising
`OSError`. -/
def remove_plugin (fs : PluginsDir) (slug : String) (rm_ok : Bool) :
    Bool × PluginsDir :=
  match fs slug with
  | none => (false, fs)
  | some _ => if rm_ok then (true, updateDir fs slug none) else (false, fs)

/-- `PluginInstaller.is_plugin_installed` (installer.py lines 175-187): the
plugin directory exists and contains a `src` directory. -/
def is_plugin_installed (fs : PluginsDir) (slug : String) : Bool :=
  match fs slug with
  | some t => t.hasSrcDir
  | none => false

/-! ## `ManifestManager` and the remove command
(src/src/mesh_plugin_manager/manifest.py, commands/remove.py) -/

/-- One lockfile plugin entry; only its recorded dependency map matters to
the remove command (`plugin_data.get("dependencies", {})`). -/
structure LockEntry where
  dependencies : Option (List (String × String))
deriving DecidableEq, Repr

/-- The local manifest document; its `plugins` key may be absent. -/
structure ManifestDoc where
  plugins : Option (List (String × String))
deriving DecidableEq, Repr

/-- The lockfile document; its `plugins` key may be absent. -/
structure LockDoc where
  plugins : Option (List (String × LockEntry))
deriving DecidableEq, Repr

/-- On-disk project state the remove command touches: the plugins directory,
`meshtastic.json` and `meshtastic-lock.json` (each file possibly absent). -/
structure ProjectState where
  plugins_dir : PluginsDir
  manifest_file : Option ManifestDoc
  lock_file : Option LockDoc

/-- `ManifestManager.read_manifest` (manifest.py lines 23-34): defaults to a
document with an empty `plugins` map when the file is absent. -/
def read_manifest (st : ProjectState) : ManifestDoc :=
  st.manifest_file.getD ⟨some []⟩

/-- `ManifestManager.read_lockfile` (manifest.py lines 46-57). -/
def read_lockfile (st : ProjectState) : LockDoc :=
  st.lock_file.getD ⟨some []⟩

/-- `ManifestManager.remove_dependency` (manifest.py lines 102-117): deletes
the slug from the manifest's `plugins` map and writes, if present. -/
def remove_dependency (st : ProjectState) (slug : String) :
    ProjectState × Bool :=
  let m := read_manifest st
  match m.plugins with
  | some ps =>
    if (lookupMap ps slug).isSome then
      ({ st with manifest_file := some ⟨some (ps.filter (fun p => p.1 != slug))⟩ },
       true)
    else (st, false)
  | none => (st, false)

/-- `ManifestManager.remove_lockfile_plugin` (manifest.py lines 154-169). -/
def remove_lockfile_plugin (st : ProjectState) (slug : String) :
    ProjectState × Bool :=
  let l := read_lockfile st
  match l.plugins with
  | some ps =>
    if (lookupMap ps slug).isSome then
      ({ st with lock_file := some ⟨some (ps.filter (fun p => p.1 != slug))⟩ },
       true)
    else (st, false)
  | none => (st, false)

/-- The dependents the remove command collects (remove.py lines 32-39): every
other slug whose lockfile entry's recorded dependency map names the target. -/
def dependentsOf (st : ProjectState) (slug : String) : List String :=
  match (read_lockfile st).plugins with
  | some entries =>
    (entries.filter
      (fun p => p.1 != slug && (lookupMap (p.2.dependencies.getD []) slug).isSome)).map
      (·.1)
  | none => []

/-- Outcome of the remove command. -/
inductive RemoveOutcome where
  | notInstalled
  | blocked (dependents : List String)
  | removed
  | removeError
deriving DecidableEq, Repr

/-- `cmd_remove` (commands/remove.py lines 17-58): bail out when not
installed, refuse when dependents exist, otherwise delete the directory and
drop the slug from manifest and lockfile. -/
def cmd_remove (st : ProjectState) (rm_ok : Bool) (slug : String) :
    RemoveOutcome × ProjectState :=
  if ¬ is_plugin_installed st.plugins_dir slug then (.notInstalled, st)
  else
    let dependents := dependentsOf st slug
    if dependents ≠ [] then (.blocked dependents, st)
    else
      match remove_plugin st.plugins_dir slug rm_ok with
      | (true, fs1) =>
        let st1 := { st with plugins_dir := fs1 }
        let st2 := (remove_dependency st1 slug).1
        let st3 := (remove_lockfile_plugin st2 slug).1
        (.removed, st3)
      | (false, _) => (.removeError, st)

/-- Every cache entry records exactly the manifest the world supplies for its
candidate, reachable only through the clone path. -/
def CacheConsistent (reg : Registry) (world : World)
    (cache : List (String × ManifestData)) : Prop :=
  ∀ k m, lookupMap cache k = some m →
    ∃ identifier version url,
      '@' ∉ identifier.data ∧
      k = identifier ++ "@" ++ version ∧
      inlineDeps reg identifier version = none ∧
      repoOf reg identifier = some url ∧
      world url ("v" ++ version) = .manifest m

/-- Some *other* slug's lockfile entry records the target slug among its
dependencies (the condition the remove command's dependents scan detects). -/
def HasDependent (st : ProjectState) (slug : String) : Prop :=
  ∃ s e, (s, e) ∈ (read_lockfile st).plugins.getD [] ∧ s ≠ slug ∧
    (lookupMap (e.dependencies.getD []) slug).isSome = true

/-! ## Basic lemmas about the association-list maps and string splitting -/

theorem lookupMap_insertMap_self {α : Type} (m : List (String × α)) (k : String)
    (v : α) : lookupMap (insertMap m k v) k = some v := by
  simp [lookupMap, insertMap, List.find?]

theorem lookupMap_insertMap_ne {α : Type} (m : List (String × α)) (k k' : String)
    (v : α) (h : k' ≠ k) :
    lookupMap (insertMap m k v) k' = lookupMap m k' := by
  have hb : (k == k') = false := by simp [Ne.symm h]
  simp [lookupMap, insertMap, List.find?_cons, hb]

theorem lookupMap_filter_self {α : Type} (ps : List (String × α)) (slug : String) :
    lookupMap (ps.filter (fun p => p.1 != slug)) slug = none := by
  unfold lookupMap
  cases hf : List.find? (fun p => p.1 == slug) (List.filter (fun p => p.1 != slug) ps) with
  | none => rfl
  | some p =>
    have heq := List.find?_some hf
    have hmem := List.mem_of_find?_eq_some hf
    simp only [List.mem_filter, bne_iff_ne, ne_eq] at hmem
    simp only [beq_iff_eq] at heq
    exact absurd heq hmem.2

theorem splitFirst_sound (sep : Char) :
    ∀ (l a b : List Char), splitFirst sep l = some (a, b) →
      l = a ++ sep :: b ∧ sep ∉ a := by
  intro l
  induction l with
  | nil => intro a b h; exact absurd h (by simp [splitFirst])
  | cons c cs ih =>
    intro a b h
    unfold splitFirst at h
    by_cases hc : c = sep
    · rw [if_pos hc] at h
      obtain ⟨rfl, rfl⟩ : ([] : List Char) = a ∧ cs = b := by
        refine ⟨?_, ?_⟩ <;> injection h with h1 <;>
          [exact congrArg Prod.fst h1; exact congrArg Prod.snd h1]
      subst hc
      simp
    · rw [if_neg hc] at h
      cases hs : splitFirst sep cs with
      | none => rw [hs] at h; exact Option.noConfusion h
      | some p =>
        obtain ⟨a', b'⟩ := p
        rw [hs] at h
        dsimp only at h
        obtain ⟨rfl, rfl⟩ : c :: a' = a ∧ b' = b := by
          refine ⟨?_, ?_⟩ <;> injection h with h1 <;>
            [exact congrArg Prod.fst h1; exact congrArg Prod.snd h1]
        obtain ⟨h1, h2⟩ := ih a' b' hs
        rw [h1]
        refine ⟨rfl, ?_⟩
        simp only [List.mem_cons, not_or]
        exact ⟨fun he => hc he.symm, h2⟩

theorem splitFirst_append (sep : Char) :
    ∀ (a b : List Char), sep ∉ a →
      splitFirst sep (a ++ sep :: b) = some (a, b) := by
  intro a
  induction a with
  | nil => intro b _; simp [splitFirst]
  | cons c cs ih =>
    intro b hna
    simp only [List.mem_cons, not_or] at hna
    rw [List.cons_append]
    unfold splitFirst
    rw [if_neg (fun he => hna.1 he.symm), ih b hna.2]

theorem splitCandidate_sound (s : String) (i v : String)
    (h : splitCandidate s = some (i, v)) : '@' ∉ i.data := by
  unfold splitCandidate at h
  cases hs : splitFirst '@' s.toList with
  | none => rw [hs] at h; exact Option.noConfusion h
  | some p =>
    obtain ⟨a, b⟩ := p
    rw [hs] at h
    dsimp only at h
    obtain ⟨rfl, rfl⟩ : a.asString = i ∧ b.asString = v := by
      refine ⟨?_, ?_⟩ <;> injection h with h1 <;>
        [exact congrArg Prod.fst h1; exact congrArg Prod.snd h1]
    have := (splitFirst_sound '@' s.toList a b hs).2
    simpa [List.asString] using this

theorem splitCandidate_key (i v : String) (hi : '@' ∉ i.data) :
    splitCandidate (i ++ "@" ++ v) = some (i, v) := by
  unfold splitCandidate
  have hdata : (i ++ "@" ++ v).toList = i.data ++ '@' :: v.data := by
    show (i ++ "@" ++ v).data = _
    rw [String.data_append, String.data_append]
    show i.data ++ ['@'] ++ v.data = _
    rw [List.append_assoc]
    rfl
  rw [hdata, splitFirst_append '@' i.data v.data hi]
  rfl

theorem candKey_inj (i1 v1 i2 v2 : String) (h1 : '@' ∉ i1.data)
    (h2 : '@' ∉ i2.data) (h : i1 ++ "@" ++ v1 = i2 ++ "@" ++ v2) :
    i1 = i2 ∧ v1 = v2 := by
  have e1 := splitCandidate_key i1 v1 h1
  rw [h, splitCandidate_key i2 v2 h2] at e1
  refine ⟨?_, ?_⟩ <;> injection e1 with h3 <;>
    [exact (congrArg Prod.fst h3).symm; exact (congrArg Prod.snd h3).symm]

/-! ## Lemmas about the version matcher's string dispatch -/

theorem strStartsWith_single (u p : String) (d : Char) (hp : p.data = [d]) :
    strStartsWith u p = true ↔ ∃ rest, u.data = d :: rest := by
  unfold strStartsWith
  rw [hp]
  cases hd : u.data with
  | nil =>
    simp only [List.isPrefixOf]
    constructor
    · intro h; exact absurd h (by decide)
    · rintro ⟨rest, hr⟩; exact absurd hr (by simp)
  | cons c cs =>
    simp only [List.isPrefixOf, Bool.and_eq_true, beq_iff_eq]
    constructor
    · rintro ⟨rfl, -⟩; exact ⟨cs, rfl⟩
    · rintro ⟨rest, hr⟩
      obtain ⟨rfl, rfl⟩ : c = d ∧ cs = rest := by
        constructor <;> [exact (List.cons.injEq .. ▸ hr).1; exact (List.cons.injEq .. ▸ hr).2]
      exact ⟨rfl, by simp [List.isPrefixOf]⟩

theorem strStartsWith_single_ne (u p : String) (d c : Char) (rest : List Char)
    (hp : p.data = [d]) (hu : u.data = c :: rest) (hne : d ≠ c) :
    strStartsWith u p = false := by
  simp [strStartsWith, hp, hu, List.isPrefixOf, hne]

/-! ## Lemmas about `find_matches` and `get_dependencies` -/

theorem reqsOfDeps_no_meshtastic (deps : List (String × String)) :
    (reqsOfDeps deps).all (fun r => r.identifier != "meshtastic") = true := by
  simp only [reqsOfDeps, List.all_eq_true]
  intro r hr
  simp only [List.mem_map, List.mem_filter] at hr
  obtain ⟨d, ⟨_, hd⟩, rfl⟩ := hr
  simpa using hd

/-- Closed form of the candidate list `find_matches` returns. -/
theorem find_matches_eq (reg : Registry) (ps : ProviderState) (identifier : String)
    (reqs : List Requirement) (excl : List String) :
    (find_matches reg ps identifier reqs excl).1 =
      match lookupMap reg identifier with
      | none => []
      | some info =>
        match info.version with
        | none => []
        | some vs =>
          match Version.parse vs with
          | none => []
          | some ver =>
            if identifier ++ "@" ++ vs ∈ excl ∨ vs ∈ excl then []
            else if satisfies_version ver
                ((lookupMap ps.requirement_specs identifier).getD "*") then
              [identifier ++ "@" ++ vs]
            else [] := by
  unfold find_matches
  cases lookupMap reg identifier with
  | none => rfl
  | some info =>
    dsimp only
    cases info.version with
    | none => rfl
    | some vs =>
      dsimp only [List.foldl]
      cases Version.parse vs with
      | none => rfl
      | some ver =>
        dsimp only
        by_cases hexcl : identifier ++ "@" ++ vs ∈ excl ∨ vs ∈ excl
        · rw [if_pos hexcl, if_pos hexcl]
          rfl
        · rw [if_neg hexcl, if_neg hexcl]
          by_cases hsat : satisfies_version ver
              ((lookupMap ps.requirement_specs identifier).getD "*") = true
          · rw [if_pos hsat, if_pos hsat]
            rfl
          · rw [if_neg hsat, if_neg hsat]
            rfl

/-! ## Cache consistency across resolution runs -/

theorem cacheConsistent_nil (reg : Registry) (world : World) :
    CacheConsistent reg world [] := by
  intro k m h
  exact absurd h (by simp [lookupMap])

theorem cacheConsistent_insert (reg : Registry) (world : World)
    (cache : List (String × ManifestData)) (identifier version url : String)
    (m : ManifestData)
    (hc : CacheConsistent reg world cache)
    (hi : '@' ∉ identifier.data)
    (hinl : inlineDeps reg identifier version = none)
    (hrepo : repoOf reg identifier = some url)
    (hw : world url ("v" ++ version) = .manifest m) :
    CacheConsistent reg world
      (insertMap cache (identifier ++ "@" ++ version) m) := by
  intro k m' h
  by_cases hk : k = identifier ++ "@" ++ version
  · subst hk
    rw [lookupMap_insertMap_self] at h
    obtain rfl : m = m' := by injection h
    exact ⟨identifier, version, url, hi, rfl, hinl, hrepo, hw⟩
  · rw [lookupMap_insertMap_ne _ _ _ _ hk] at h
    exact hc k m' h

theorem get_dependencies_congr (reg : Registry) (world : World)
    (ps1 ps2 : ProviderState) (candidate : String)
    (h1 : CacheConsistent reg world ps1.manifest_cache)
    (h2 : CacheConsistent reg world ps2.manifest_cache) :
    (get_dependencies reg world ps1 candidate).1 =
      (get_dependencies reg world ps2 candidate).1
    ∧ CacheConsistent reg world
        (get_dependencies reg world ps1 candidate).2.manifest_cache
    ∧ CacheConsistent reg world
        (get_dependencies reg world ps2 candidate).2.manifest_cache := by
  unfold get_dependencies
  cases hsc : splitCandidate candidate with
  | none => exact ⟨rfl, h1, h2⟩
  | some p =>
    obtain ⟨i, v⟩ := p
    have hiat : '@' ∉ i.data := splitCandidate_sound candidate i v hsc
    dsimp only
    have key_facts : ∀ (cache : List (String × ManifestData)) (m : ManifestData),
        CacheConsistent reg world cache →
        lookupMap cache (i ++ "@" ++ v) = some m →
        inlineDeps reg i v = none ∧
        ∃ url, repoOf reg i = some url ∧ world url ("v" ++ v) = .manifest m := by
      intro cache m hcc hl
      obtain ⟨i', v', url, hi', hk, hinl, hrepo, hw⟩ := hcc _ _ hl
      obtain ⟨rfl, rfl⟩ := candKey_inj i v i' v' hiat hi' hk
      exact ⟨hinl, url, hrepo, hw⟩
    cases hc1 : lookupMap ps1.manifest_cache (i ++ "@" ++ v) with
    | some m1 =>
      obtain ⟨hinl, url, hrepo, hw⟩ := key_facts _ _ h1 hc1
      cases hc2 : lookupMap ps2.manifest_cache (i ++ "@" ++ v) with
      | some m2 =>
        obtain ⟨-, url2, hrepo2, hw2⟩ := key_facts _ _ h2 hc2
        rw [hrepo] at hrepo2
        obtain rfl : url = url2 := by injection hrepo2
        rw [hw] at hw2
        obtain rfl : m1 = m2 := by injection hw2
        exact ⟨rfl, h1, h2⟩
      | none =>
        dsimp only
        rw [hinl, hrepo]
        dsimp only
        rw [hw]
        exact ⟨rfl, h1,
          cacheConsistent_insert _ _ _ _ _ _ _ h2 hiat hinl hrepo hw⟩
    | none =>
      cases hc2 : lookupMap ps2.manifest_cache (i ++ "@" ++ v) with
      | some m2 =>
        obtain ⟨hinl, url, hrepo, hw⟩ := key_facts _ _ h2 hc2
        dsimp only
        rw [hinl, hrepo]
        dsimp only
        rw [hw]
        exact ⟨rfl,
          cacheConsistent_insert _ _ _ _ _ _ _ h1 hiat hinl hrepo hw, h2⟩
      | none =>
        dsimp only
        cases hinl : inlineDeps reg i v with
        | some deps => exact ⟨rfl, h1, h2⟩
        | none =>
          dsimp only
          cases hrepo : repoOf reg i with
          | none => exact ⟨rfl, h1, h2⟩
          | some url =>
            dsimp only
            cases hw : world url ("v" ++ v) with
            | cloneFail => exact ⟨rfl, h1, h2⟩
            | noManifest => exact ⟨rfl, h1, h2⟩
            | badManifest => exact ⟨rfl, h1, h2⟩
            | manifest m =>
              exact ⟨rfl,
                cacheConsistent_insert _ _ _ _ _ _ _ h1 hiat hinl hrepo hw,
                cacheConsistent_insert _ _ _ _ _ _ _ h2 hiat hinl hrepo hw⟩

/-! ## Determinism of the resolution pipeline -/

theorem find_matches_manifest_cache (reg : Registry) (ps : ProviderState)
    (i : String) (reqs : List Requirement) (excl : List String) :
    (find_matches reg ps i reqs excl).2.manifest_cache = ps.manifest_cache := by
  unfold find_matches
  cases lookupMap reg i with
  | none => rfl
  | some info =>
    dsimp only
    cases info.version with
    | none => rfl
    | some vs =>
      dsimp only [List.foldl]
      cases Version.parse vs with
      | none => rfl
      | some ver =>
        dsimp only
        by_cases hexcl : i ++ "@" ++ vs ∈ excl ∨ vs ∈ excl
        · rw [if_pos hexcl]
        · rw [if_neg hexcl]
          by_cases hsat : satisfies_version ver
              ((lookupMap ps.requirement_specs i).getD "*") = true
          · rw [if_pos hsat]
          · rw [if_neg hsat]

theorem find_matches_fst_congr (reg : Registry) (ps1 ps2 : ProviderState)
    (i : String) (reqs1 reqs2 : List Requirement) (excl : List String)
    (h : lookupMap ps1.requirement_specs i = lookupMap ps2.requirement_specs i) :
    (find_matches reg ps1 i reqs1 excl).1 = (find_matches reg ps2 i reqs2 excl).1 := by
  rw [find_matches_eq, find_matches_eq, h]

theorem identify_spec_self (ps : ProviderState) (r : Requirement) :
    lookupMap (identify ps r).1.requirement_specs r.identifier = some r.spec := by
  show lookupMap (insertMap ps.requirement_specs r.identifier r.spec) r.identifier
    = some r.spec
  exact lookupMap_insertMap_self _ _ _


theorem solve_congr (reg : Registry) (world : World) : ∀ fuel : Nat,
    (∀ (ps1 ps2 : ProviderState) (work : List Requirement)
        (assign : List (String × String)),
        CacheConsistent reg world ps1.manifest_cache →
        CacheConsistent reg world ps2.manifest_cache →
        (solveAux reg world fuel ps1 work assign).1 =
          (solveAux reg world fuel ps2 work assign).1
        ∧ CacheConsistent reg world
            (solveAux reg world fuel ps1 work assign).2.manifest_cache
        ∧ CacheConsistent reg world
            (solveAux reg world fuel ps2 work assign).2.manifest_cache)
    ∧ (∀ (ps1 ps2 : ProviderState) (cands : List String)
        (rest : List Requirement) (assign : List (String × String))
        (slug : String),
        CacheConsistent reg world ps1.manifest_cache →
        CacheConsistent reg world ps2.manifest_cache →
        (tryCandidates reg world fuel ps1 cands rest assign slug).1 =
          (tryCandidates reg world fuel ps2 cands rest assign slug).1
        ∧ CacheConsistent reg world
            (tryCandidates reg world fuel ps1 cands rest assign slug).2.manifest_cache
        ∧ CacheConsistent reg world
            (tryCandidates reg world fuel ps2 cands rest assign slug).2.manifest_cache) := by
  intro fuel
  induction fuel with
  | zero =>
    constructor
    · intro ps1 ps2 work assign h1 h2
      exact ⟨rfl, h1, h2⟩
    · intro ps1 ps2 cands rest assign slug h1 h2
      exact ⟨rfl, h1, h2⟩
  | succ f ih =>
    obtain ⟨ihS, ihT⟩ := ih
    constructor
    · intro ps1 ps2 work assign h1 h2
      cases work with
      | nil => exact ⟨rfl, h1, h2⟩
      | cons r rest =>
        simp only [solveAux]
        cases hass : lookupMap assign r.identifier with
        | some cand =>
          dsimp only
          by_cases hsat : is_satisfied_by r cand = true
          · rw [if_pos hsat, if_pos hsat]
            exact ihS (identify ps1 r).1 (identify ps2 r).1 rest assign h1 h2
          · rw [if_neg hsat, if_neg hsat]
            exact ⟨rfl, h1, h2⟩
        | none =>
          dsimp only
          have hspec : lookupMap (identify ps1 r).1.requirement_specs r.identifier
              = lookupMap (identify ps2 r).1.requirement_specs r.identifier := by
            rw [identify_spec_self, identify_spec_self]
          have hfm : (find_matches reg (identify ps1 r).1 r.identifier [r] []).1
              = (find_matches reg (identify ps2 r).1 r.identifier [r] []).1 :=
            find_matches_fst_congr reg _ _ r.identifier [r] [r] [] hspec
          have hc1 : CacheConsistent reg world
              (find_matches reg (identify ps1 r).1 r.identifier [r] []).2.manifest_cache := by
            rw [find_matches_manifest_cache]
            exact h1
          have hc2 : CacheConsistent reg world
              (find_matches reg (identify ps2 r).1 r.identifier [r] []).2.manifest_cache := by
            rw [find_matches_manifest_cache]
            exact h2
          rw [hfm]
          exact ihT _ _ _ rest assign r.identifier hc1 hc2
    · intro ps1 ps2 cands rest assign slug h1 h2
      cases cands with
      | nil => exact ⟨rfl, h1, h2⟩
      | cons c cs =>
        simp only [tryCandidates]
        obtain ⟨hdeps, hg1, hg2⟩ := get_dependencies_congr reg world ps1 ps2 c h1 h2
        rw [← hdeps]
        obtain ⟨hs, hs1, hs2⟩ := ihS (get_dependencies reg world ps1 c).2
          (get_dependencies reg world ps2 c).2 (rest ++ (get_dependencies reg world ps1 c).1)
          (insertMap assign slug c) hg1 hg2
        generalize hp1 : solveAux reg world f (get_dependencies reg world ps1 c).2
            (rest ++ (get_dependencies reg world ps1 c).1) (insertMap assign slug c)
          = s1 at hs hs1 ⊢
        generalize hp2 : solveAux reg world f (get_dependencies reg world ps2 c).2
            (rest ++ (get_dependencies reg world ps1 c).1) (insertMap assign slug c)
          = s2 at hs hs2 ⊢
        obtain ⟨o1, q1⟩ := s1
        obtain ⟨o2, q2⟩ := s2
        dsimp only at hs hs1 hs2 ⊢
        subst hs
        cases o1 with
        | some a =>
          dsimp only
          exact ⟨rfl, hs1, hs2⟩
        | none =>
          dsimp only
          exact ihT q1 q2 cs rest assign slug hs1 hs2


theorem resolve_snd (reg : Registry) (world : World) (fuel : Nat)
    (ps : ProviderState) (requirements : List (String × String)) :
    (resolve reg world fuel ps requirements).2 =
      (solveAux reg world fuel ps
        (requirements.map (fun p => Requirement.mk p.1 p.2)) []).2 := by
  unfold resolve
  dsimp only
  generalize solveAux reg world fuel ps
      (requirements.map (fun p => Requirement.mk p.1 p.2)) [] = s
  obtain ⟨o, q⟩ := s
  cases o <;> rfl

theorem resolve_fst_eq (reg : Registry) (world : World) (fuel : Nat)
    (ps : ProviderState) (requirements : List (String × String)) :
    (resolve reg world fuel ps requirements).1 =
      Option.map (fun mapping => mapping.map (fun p =>
          (p.1, match splitCandidate p.2 with
                | some (_, version) => version
                | none => p.2)))
        (solveAux reg world fuel ps
          (requirements.map (fun p => Requirement.mk p.1 p.2)) []).1 := by
  unfold resolve
  dsimp only
  generalize solveAux reg world fuel ps
      (requirements.map (fun p => Requirement.mk p.1 p.2)) [] = s
  obtain ⟨o, q⟩ := s
  cases o <;> rfl

/-- C2: for every registry snapshot and input requirement map, two invocations
of `DependencyResolver.resolve` with identical inputs produce identical
resulting slug-to-version mappings — here the second invocation even runs on
the provider state (warm manifest cache and stored specs) left by the first,
as the shared `PluginProvider` does. -/
theorem resolve_deterministic (reg : Registry) (world : World) (fuel : Nat)
    (requirements : List (String × String)) :
    (resolve reg world fuel ProviderState.fresh requirements).1 =
      (resolve reg world fuel
        (resolve reg world fuel ProviderState.fresh requirements).2
        requirements).1 := by
  have hfresh : CacheConsistent reg world ProviderState.fresh.manifest_cache :=
    cacheConsistent_nil reg world
  have h1 := (solve_congr reg world fuel).1 ProviderState.fresh ProviderState.fresh
    (requirements.map (fun p => Requirement.mk p.1 p.2)) [] hfresh hfresh
  have h2 := (solve_congr reg world fuel).1 ProviderState.fresh
    (solveAux reg world fuel ProviderState.fresh
      (requirements.map (fun p => Requirement.mk p.1 p.2)) []).2
    (requirements.map (fun p => Requirement.mk p.1 p.2)) [] hfresh h1.2.1
  rw [resolve_fst_eq, resolve_fst_eq, resolve_snd, h2.1]


/-! ## Claim theorems and witnesses -/

/-- C3: for every semantic version `v` and base version `X.Y.Z`,
`_satisfies_version` accepts the caret range `^X.Y.Z` exactly when
`X.Y.Z <= v < (X+1).0.0`, and the tilde range `~X.Y.Z` exactly when
`X.Y.Z <= v < X.(Y+1).0`. -/
theorem satisfies_caret_tilde_bounds (v base1 base2 : Version) (s t : String)
    (hs : strStartsWith (strTrim s) "^" = true)
    (hsp : Version.parse (strDrop (strTrim s) 1) = some base1)
    (ht : strStartsWith (strTrim t) "~" = true)
    (htp : Version.parse (strDrop (strTrim t) 1) = some base2) :
    (satisfies_version v s = true ↔
      (Version.le base1 v = true ∧ Version.lt v ⟨base1.major + 1, 0, 0⟩ = true))
    ∧ (satisfies_version v t = true ↔
      (Version.le base2 v = true ∧ Version.lt v ⟨base2.major, base2.minor + 1, 0⟩ = true)) := by
  constructor
  · have hne : ¬(strTrim s = "" ∨ strTrim s = "*") := by
      rintro (h | h) <;> rw [h] at hs <;> exact absurd hs (by decide)
    unfold satisfies_version satisfiesSpec
    rw [if_neg hne, if_pos hs, hsp]
    simp [Version.bump_major]
  · have hne : ¬(strTrim t = "" ∨ strTrim t = "*") := by
      rintro (h | h) <;> rw [h] at ht <;> exact absurd ht (by decide)
    obtain ⟨rest, hd⟩ := (strStartsWith_single (strTrim t) "~" '~' rfl).mp ht
    have hcar : strStartsWith (strTrim t) "^" = false :=
      strStartsWith_single_ne (strTrim t) "^" '^' '~' rest rfl hd (by decide)
    unfold satisfies_version satisfiesSpec
    rw [if_neg hne, if_neg (by simp [hcar]), if_pos ht, htp]
    simp [Version.bump_minor]

/-- Witness for C3 at `v = 1.5.0`, caret range `"^1.2.3"` and tilde range
`"~1.2.3"`. -/
theorem satisfies_caret_tilde_bounds_witness :
    (satisfies_version ⟨1, 5, 0⟩ "^1.2.3" = true ↔
      (Version.le ⟨1, 2, 3⟩ ⟨1, 5, 0⟩ = true ∧
        Version.lt ⟨1, 5, 0⟩ ⟨1 + 1, 0, 0⟩ = true))
    ∧ (satisfies_version ⟨1, 5, 0⟩ "~1.2.3" = true ↔
      (Version.le ⟨1, 2, 3⟩ ⟨1, 5, 0⟩ = true ∧
        Version.lt ⟨1, 5, 0⟩ ⟨1, 2 + 1, 0⟩ = true)) :=
  satisfies_caret_tilde_bounds ⟨1, 5, 0⟩ ⟨1, 2, 3⟩ ⟨1, 2, 3⟩ "^1.2.3" "~1.2.3"
    (by decide) (by decide) (by decide) (by decide)

/-- C4: for every version `v` and range string whose operator-stripped
version part does not parse (and which is neither empty nor the wildcard
after stripping), `_satisfies_version` returns `False` — malformed ranges
fail closed, and the function is total by construction. -/
theorem malformed_range_fails_closed (v : Version) (s : String)
    (h0 : ¬(strTrim s = "" ∨ strTrim s = "*"))
    (h2 : Version.parse (specVersionPart (strTrim s)) = none) :
    satisfies_version v s = false := by
  unfold satisfies_version satisfiesSpec
  unfold specVersionPart at h2
  rw [if_neg h0] at h2 ⊢
  by_cases c1 : strStartsWith (strTrim s) "^" = true
  · rw [if_pos c1] at h2 ⊢; rw [h2]
  · rw [if_neg c1] at h2 ⊢
    by_cases c2 : strStartsWith (strTrim s) "~" = true
    · rw [if_pos c2] at h2 ⊢; rw [h2]
    · rw [if_neg c2] at h2 ⊢
      by_cases c3 : strStartsWith (strTrim s) ">=" = true
      · rw [if_pos c3] at h2 ⊢; rw [h2]
      · rw [if_neg c3] at h2 ⊢
        by_cases c4 : strStartsWith (strTrim s) "<=" = true
        · rw [if_pos c4] at h2 ⊢; rw [h2]
        · rw [if_neg c4] at h2 ⊢
          by_cases c5 : strStartsWith (strTrim s) ">" = true
          · rw [if_pos c5] at h2 ⊢; rw [h2]
          · rw [if_neg c5] at h2 ⊢
            by_cases c6 : strStartsWith (strTrim s) "<" = true
            · rw [if_pos c6] at h2 ⊢; rw [h2]
            · rw [if_neg c6] at h2 ⊢
              by_cases c7 : strStartsWith (strTrim s) "=" = true
              · rw [if_pos c7] at h2 ⊢; rw [h2]
              · rw [if_neg c7] at h2 ⊢; rw [h2]

/-- Witness for C4 at `v = 1.0.0` and the malformed range `">=abc"`. -/
theorem malformed_range_fails_closed_witness :
    satisfies_version ⟨1, 0, 0⟩ ">=abc" = false :=
  malformed_range_fails_closed ⟨1, 0, 0⟩ ">=abc" (by decide) (by decide)

/-- C5: `RegistryClient.fetch_registry` raises exactly when the network
fetch fails and no parsable cache file exists; whenever the network fails
but a parsable cache exists — stale or not — it returns the cached data. -/
theorem fetch_registry_error_characterization (env : RegistryEnv) (force_refresh : Bool) :
    ((∃ e, fetch_registry env force_refresh = .error e) ↔
      env.net = none ∧ read_cache env = none)
    ∧ (∀ r, env.net = none → read_cache env = some r →
        fetch_registry env force_refresh = .ok r) := by
  rcases env with ⟨_ | ⟨_ | r0⟩, fresh, _ | n⟩ <;> cases force_refresh <;>
    cases fresh <;>
    simp [fetch_registry, read_cache, is_cache_valid]

/-- Witness for C5: network down, stale (`fresh = false`) but parsable
cache — the cached registry is returned. -/
theorem fetch_registry_error_characterization_witness :
    fetch_registry ⟨some (some []), false, none⟩ false = .ok [] :=
  (fetch_registry_error_characterization ⟨some (some []), false, none⟩ false).2
    [] rfl rfl

theorem updateDir_updateDir (fs : PluginsDir) (slug : String)
    (v v' : Option PluginTree) :
    updateDir (updateDir fs slug v) slug v' = updateDir fs slug v' := by
  funext s
  simp only [updateDir]
  split <;> rfl

theorem updateDir_self (fs : PluginsDir) (slug : String) (v : Option PluginTree) :
    updateDir fs slug v slug = v := by
  simp [updateDir]

theorem updateDir_ne (fs : PluginsDir) (slug s : String) (v : Option PluginTree)
    (h : s ≠ slug) : updateDir fs slug v s = fs s := by
  simp [updateDir, h]

theorem install_plugin_char (fs : PluginsDir) (slug : String) (w : CloneResult) :
    install_plugin fs slug w =
      ((match w with | .ok t => t.hasSrcDir | .fail _ => false),
       updateDir fs slug
         (match w with
          | .ok t => if t.hasSrcDir then some t else none
          | .fail _ => none)) := by
  cases w with
  | ok t => cases ht : t.hasSrcDir <;> simp [install_plugin, ht, updateDir_updateDir]
  | fail leftover => simp [install_plugin, updateDir_updateDir]

/-- C6: `install_plugin` always removes any pre-existing directory for the
slug before cloning (its result is independent of the prior entry), on
failure no plugin directory remains, installing the same slug and clone
outcome twice yields the same on-disk result, and no other slug's directory
is touched. -/
theorem install_plugin_clean_idempotent (fs : PluginsDir) (slug : String) (w : CloneResult) :
    install_plugin fs slug w = install_plugin (updateDir fs slug none) slug w
    ∧ (install_plugin fs slug w).1 =
        (match w with | .ok t => t.hasSrcDir | .fail _ => false)
    ∧ (install_plugin fs slug w).2 slug =
        (match w with
         | .ok t => if t.hasSrcDir then some t else none
         | .fail _ => none)
    ∧ install_plugin ((install_plugin fs slug w).2) slug w = install_plugin fs slug w
    ∧ ∀ s, s ≠ slug → (install_plugin fs slug w).2 s = fs s := by
  refine ⟨?_, ?_, ?_, ?_, ?_⟩
  · rw [install_plugin_char, install_plugin_char, updateDir_updateDir]
  · rw [install_plugin_char]
  · rw [install_plugin_char]
    exact updateDir_self _ _ _
  · rw [install_plugin_char fs, install_plugin_char]
    dsimp only
    rw [updateDir_updateDir]
  · intro s hs
    rw [install_plugin_char]
    exact updateDir_ne _ _ _ _ hs

/-- Witness for C6 at a concrete directory state, slug and clone outcome,
discharging the frame hypothesis at slug `"q"`. -/
theorem install_plugin_clean_idempotent_witness :
    (install_plugin (fun _ => none) "p" (.ok ⟨true⟩)).2 "q" = none :=
  (install_plugin_clean_idempotent (fun _ => none) "p" (.ok ⟨true⟩)).2.2.2.2
    "q" (by decide)

theorem dependentsOf_ne_nil_iff (st : ProjectState) (slug : String) :
    dependentsOf st slug ≠ [] ↔ HasDependent st slug := by
  unfold dependentsOf HasDependent
  cases h : (read_lockfile st).plugins with
  | none => simp
  | some entries =>
    simp only [List.map_eq_nil_iff, ne_eq, List.filter_eq_nil_iff, Option.getD_some]
    push_neg
    constructor
    · rintro ⟨⟨s, e⟩, hmem, hp⟩
      simp only [Bool.and_eq_true, bne_iff_ne, ne_eq] at hp
      exact ⟨s, e, hmem, hp.1, hp.2⟩
    · rintro ⟨s, e, hmem, hs, hd⟩
      refine ⟨(s, e), hmem, ?_⟩
      simp [hs, hd]

theorem remove_dependency_frame (st : ProjectState) (slug : String) :
    (remove_dependency st slug).1.plugins_dir = st.plugins_dir ∧
    (remove_dependency st slug).1.lock_file = st.lock_file := by
  unfold remove_dependency
  dsimp only
  split
  · split <;> exact ⟨rfl, rfl⟩
  · exact ⟨rfl, rfl⟩

theorem remove_lockfile_plugin_frame (st : ProjectState) (slug : String) :
    (remove_lockfile_plugin st slug).1.plugins_dir = st.plugins_dir ∧
    (remove_lockfile_plugin st slug).1.manifest_file = st.manifest_file := by
  unfold remove_lockfile_plugin
  dsimp only
  split
  · split <;> exact ⟨rfl, rfl⟩
  · exact ⟨rfl, rfl⟩

theorem remove_dependency_clears (st : ProjectState) (slug : String) :
    lookupMap ((read_manifest (remove_dependency st slug).1).plugins.getD []) slug
      = none := by
  unfold remove_dependency
  dsimp only
  cases h : (read_manifest st).plugins with
  | none =>
    dsimp only
    simp [h, lookupMap]
  | some ps =>
    cases hx : lookupMap ps slug with
    | some v =>
      simp only [hx, Option.isSome_some, if_true]
      simp [read_manifest, lookupMap_filter_self]
    | none =>
      simp only [hx, Option.isSome_none, Bool.false_eq_true, if_false]
      simp [h, hx]

theorem remove_lockfile_plugin_clears (st : ProjectState) (slug : String) :
    lookupMap ((read_lockfile (remove_lockfile_plugin st slug).1).plugins.getD []) slug
      = none := by
  unfold remove_lockfile_plugin
  dsimp only
  cases h : (read_lockfile st).plugins with
  | none =>
    dsimp only
    simp [h, lookupMap]
  | some ps =>
    cases hx : lookupMap ps slug with
    | some v =>
      simp only [hx, Option.isSome_some, if_true]
      simp [read_lockfile, lookupMap_filter_self]
    | none =>
      simp only [hx, Option.isSome_none, Bool.false_eq_true, if_false]
      simp [h, hx]

/-- C7: the remove command refuses — leaving the whole project state
untouched — whenever some other slug's lockfile entry records the target
among its dependencies; with no dependents (and the directory removal
succeeding) it reports success, deletes the plugin directory and removes the
slug's entries from both the manifest's plugin map and the lockfile. -/
theorem cmd_remove_dependent_safety (st : ProjectState) (rm_ok : Bool) (slug : String)
    (hinst : is_plugin_installed st.plugins_dir slug = true) :
    (HasDependent st slug →
      cmd_remove st rm_ok slug = (.blocked (dependentsOf st slug), st))
    ∧ (¬ HasDependent st slug → rm_ok = true →
        (cmd_remove st rm_ok slug).1 = .removed
        ∧ (cmd_remove st rm_ok slug).2.plugins_dir slug = none
        ∧ lookupMap ((read_manifest (cmd_remove st rm_ok slug).2).plugins.getD []) slug = none
        ∧ lookupMap ((read_lockfile (cmd_remove st rm_ok slug).2).plugins.getD []) slug = none) := by
  constructor
  · intro hdep
    have hne : dependentsOf st slug ≠ [] := (dependentsOf_ne_nil_iff st slug).mpr hdep
    simp [cmd_remove, hinst, hne]
  · intro hdep hrm
    subst hrm
    have hnil : dependentsOf st slug = [] := by
      by_contra hne
      exact hdep ((dependentsOf_ne_nil_iff st slug).mp hne)
    have hex : ∃ t, st.plugins_dir slug = some t := by
      unfold is_plugin_installed at hinst
      cases hfs : st.plugins_dir slug with
      | none => rw [hfs] at hinst; exact absurd hinst (by simp)
      | some t => exact ⟨t, rfl⟩
    obtain ⟨t, hfs⟩ := hex
    have hrp : remove_plugin st.plugins_dir slug true =
        (true, updateDir st.plugins_dir slug none) := by
      unfold remove_plugin; rw [hfs]; rfl
    have hcr : cmd_remove st true slug =
        (.removed,
         (remove_lockfile_plugin
           (remove_dependency
             { st with plugins_dir := updateDir st.plugins_dir slug none } slug).1
           slug).1) := by
      unfold cmd_remove
      simp [hinst, hnil, hrp]
    rw [hcr]
    refine ⟨rfl, ?_, ?_, ?_⟩
    · rw [(remove_lockfile_plugin_frame _ _).1, (remove_dependency_frame _ _).1]
      exact updateDir_self _ _ _
    · have hmf : read_manifest (remove_lockfile_plugin
          (remove_dependency
            { st with plugins_dir := updateDir st.plugins_dir slug none } slug).1 slug).1
          = read_manifest (remove_dependency
            { st with plugins_dir := updateDir st.plugins_dir slug none } slug).1 := by
        unfold read_manifest
        rw [(remove_lockfile_plugin_frame _ _).2]
      rw [hmf]
      exact remove_dependency_clears _ _
    · exact remove_lockfile_plugin_clears _ _

/-- Witness for C7: slug `"q"`'s lockfile entry depends on `"p"`, so removing
`"p"` is refused and the state is returned unchanged. -/
theorem cmd_remove_dependent_safety_witness :
    cmd_remove
      ⟨fun s => if s = "p" then some ⟨true⟩ else none,
       some ⟨some [("p", "^1.0.0")]⟩,
       some ⟨some [("q", ⟨some [("p", "^1.0.0")]⟩)]⟩⟩ true "p"
    = (.blocked ["q"],
       ⟨fun s => if s = "p" then some ⟨true⟩ else none,
        some ⟨some [("p", "^1.0.0")]⟩,
        some ⟨some [("q", ⟨some [("p", "^1.0.0")]⟩)]⟩⟩) := by
  have h := (cmd_remove_dependent_safety
      ⟨fun s => if s = "p" then some ⟨true⟩ else none,
       some ⟨some [("p", "^1.0.0")]⟩,
       some ⟨some [("q", ⟨some [("p", "^1.0.0")]⟩)]⟩⟩ true "p" (by decide)).1
    ⟨"q", ⟨some [("p", "^1.0.0")]⟩, by decide, by decide, by decide⟩
  rw [show dependentsOf
      ⟨fun s => if s = "p" then some ⟨true⟩ else none,
       some ⟨some [("p", "^1.0.0")]⟩,
       some ⟨some [("q", ⟨some [("p", "^1.0.0")]⟩)]⟩⟩ "p" = ["q"] from by decide]
    at h
  exact h

/-- C8: for every candidate — whether served from the per-run cache, the
registry's inline dependency map, or a cloned remote manifest —
`get_dependencies` returns no `Requirement` whose slug is the host firmware
name `"meshtastic"`. -/
theorem get_dependencies_filters_host_firmware (reg : Registry) (world : World)
    (ps : ProviderState) (candidate : String) :
    ((get_dependencies reg world ps candidate).1.all
      (fun r => r.identifier != "meshtastic")) = true := by
  unfold get_dependencies
  split
  · rfl
  · dsimp only
    split
    · exact reqsOfDeps_no_meshtastic _
    · split
      · exact reqsOfDeps_no_meshtastic _
      · split
        · rfl
        · split <;> first | rfl | exact reqsOfDeps_no_meshtastic _

/-- C9: whenever dependency discovery cannot obtain metadata for a candidate
— no repository URL in the registry entry, a failing clone, an absent remote
manifest, or unparsable manifest JSON — `get_dependencies` returns the empty
list, leaves the provider state unchanged, and (being a total function)
raises no exception. -/
theorem get_dependencies_failure_leaf (reg : Registry) (world : World) (ps : ProviderState)
    (candidate identifier version : String)
    (hsplit : splitCandidate candidate = some (identifier, version))
    (hcache : lookupMap ps.manifest_cache (identifier ++ "@" ++ version) = none)
    (hinline : inlineDeps reg identifier version = none)
    (hfail : ∀ url, repoOf reg identifier = some url →
        world url ("v" ++ version) = .cloneFail ∨
        world url ("v" ++ version) = .noManifest ∨
        world url ("v" ++ version) = .badManifest) :
    get_dependencies reg world ps candidate = ([], ps) := by
  unfold get_dependencies
  rw [hsplit]
  dsimp only
  rw [hcache, hinline]
  dsimp only
  cases hrepo : repoOf reg identifier with
  | none => rfl
  | some url =>
    dsimp only
    rcases hfail url hrepo with hw | hw | hw <;> rw [hw]

/-- Witness for C9: a candidate whose registry entry has a repository URL
but whose clone fails. -/
theorem get_dependencies_failure_leaf_witness :
    get_dependencies [("p", ⟨some "1.0.0", some "https://x/p", none⟩)]
      (fun _ _ => .cloneFail) ProviderState.fresh "p@1.0.0"
      = ([], ProviderState.fresh) :=
  get_dependencies_failure_leaf [("p", ⟨some "1.0.0", some "https://x/p", none⟩)]
    (fun _ _ => .cloneFail) ProviderState.fresh "p@1.0.0" "p" "1.0.0"
    (by decide) (by decide) (by decide)
    (fun url h => .inl rfl)

/-- C10: invoking the remove command for a slug that is not installed
returns immediately with the project state — plugins directory, manifest
and lockfile — unchanged. -/
theorem cmd_remove_not_installed_frame (st : ProjectState) (rm_ok : Bool) (slug : String)
    (h : is_plugin_installed st.plugins_dir slug = false) :
    cmd_remove st rm_ok slug = (.notInstalled, st) := by
  simp [cmd_remove, h]

/-- Witness for C10: `"p"` is not installed although the manifest still has
an entry for it; the command returns with the state unchanged. -/
theorem cmd_remove_not_installed_frame_witness :
    cmd_remove ⟨fun _ => none, some ⟨some [("p", "^1.0.0")]⟩, some ⟨some []⟩⟩
      true "p"
    = (.notInstalled,
       ⟨fun _ => none, some ⟨some [("p", "^1.0.0")]⟩, some ⟨some []⟩⟩) :=
  cmd_remove_not_installed_frame
    ⟨fun _ => none, some ⟨some [("p", "^1.0.0")]⟩, some ⟨some []⟩⟩ true "p"
    (by decide)

/-- C1 counterexample: it is not the case that a candidate returned by
`find_matches` satisfies every requirement passed for its slug.  With
registry version `1.5.0` for `p` and the two requirements `=2.0.0` and
`^1.0.0` both identified (in that order), the candidate `p@1.5.0` is
returned even though it fails `=2.0.0` — `find_matches` consults only the
most recently stored spec, not the conjunction. -/
theorem find_matches_conjunction_cex :
    ¬ (∀ (reg : Registry) (ps : ProviderState) (slug : String)
        (reqs : List Requirement) (excl : List String) (c : String),
        c ∈ (find_matches reg ps slug reqs excl).1 →
        ∀ r ∈ reqs, is_satisfied_by r c = true) := by
  intro h
  have hmem : "p@1.5.0" ∈ (find_matches
      [("p", ⟨some "1.5.0", none, none⟩)]
      (identify (identify ProviderState.fresh ⟨"p", "=2.0.0"⟩).1 ⟨"p", "^1.0.0"⟩).1
      "p" [⟨"p", "=2.0.0"⟩, ⟨"p", "^1.0.0"⟩] []).1 := by decide
  have h2 := h _ _ _ _ _ _ hmem ⟨"p", "=2.0.0"⟩ (by decide)
  exact absurd h2 (by decide)

/-- C1 (amended): if the slug is absent from the registry snapshot,
`find_matches` returns the empty list; otherwise the registry's single
published version appears as a candidate exactly when it parses, is not in
the exclusion set (as candidate string or bare version), and satisfies the
single spec most recently recorded by `identify` for that slug (wildcard
when none was recorded) — not the conjunction of all requirements. -/
theorem find_matches_last_spec_only (reg : Registry) (ps : ProviderState) (identifier : String)
    (reqs : List Requirement) (excl : List String) :
    (lookupMap reg identifier = none →
      (find_matches reg ps identifier reqs excl).1 = [])
    ∧ (∀ c, c ∈ (find_matches reg ps identifier reqs excl).1 ↔
        ∃ info vs ver,
          lookupMap reg identifier = some info ∧ info.version = some vs ∧
          c = identifier ++ "@" ++ vs ∧ Version.parse vs = some ver ∧
          c ∉ excl ∧ vs ∉ excl ∧
          satisfies_version ver
            ((lookupMap ps.requirement_specs identifier).getD "*") = true) := by
  rw [find_matches_eq]
  constructor
  · intro h
    rw [h]
  · intro c
    split
    · next hreg =>
      simp [hreg]
    · next info hreg =>
      split
      · next hver =>
        simp only [List.not_mem_nil, false_iff]
        rintro ⟨info', vs', ver', hi, hv, -⟩
        rw [hreg] at hi
        obtain rfl : info = info' := by injection hi
        rw [hver] at hv
        exact Option.noConfusion hv
      · next vs hver =>
        split
        · next hp =>
          simp only [List.not_mem_nil, false_iff]
          rintro ⟨info', vs', ver', hi, hv, -, hp', -⟩
          rw [hreg] at hi
          obtain rfl : info = info' := by injection hi
          rw [hver] at hv
          obtain rfl : vs = vs' := by injection hv
          rw [hp] at hp'
          exact Option.noConfusion hp'
        · next ver hp =>
          split
          · next hexcl =>
            simp only [List.not_mem_nil, false_iff]
            rintro ⟨info', vs', ver', hi, hv, rfl, -, hc, hv2, -⟩
            rw [hreg] at hi
            obtain rfl : info = info' := by injection hi
            rw [hver] at hv
            obtain rfl : vs = vs' := by injection hv
            rcases hexcl with h | h
            · exact hc h
            · exact hv2 h
          · next hexcl =>
            push_neg at hexcl
            split
            · next hsat =>
              simp only [List.mem_singleton]
              constructor
              · rintro rfl
                exact ⟨info, vs, ver, hreg, hver, rfl, hp, hexcl.1, hexcl.2, hsat⟩
              · rintro ⟨info', vs', ver', hi, hv, rfl, -, -, -, -⟩
                rw [hreg] at hi
                obtain rfl : info = info' := by injection hi
                rw [hver] at hv
                obtain rfl : vs = vs' := by injection hv
                rfl
            · next hsat =>
              simp only [List.not_mem_nil, false_iff]
              rintro ⟨info', vs', ver', hi, hv, rfl, hp', -, -, hsat'⟩
              rw [hreg] at hi
              obtain rfl : info = info' := by injection hi
              rw [hver] at hv
              obtain rfl : vs = vs' := by injection hv
              rw [hp] at hp'
              obtain rfl : ver = ver' := by injection hp'
              exact hsat hsat'

/-- Witness for C1 (amended): a slug absent from the registry yields no
candidates. -/
theorem find_matches_last_spec_only_witness :
    (find_matches [] ProviderState.fresh "p" [] []).1 = [] :=
  (find_matches_last_spec_only [] ProviderState.fresh "p" [] []).1 rfl

end Mpm
